import Mathlib

/-!
Verification of the ZergLang bootstrap front end (src/bootstrap/zergb):
a shallow embedding of the four-stage lexer (lexer.py) and the
recursive-descent parser (parser.py), together with theorems settling the
frozen claims about this code.

Conventions of the embedding:
* Python strings are Lean `String` (a wrapper over `List Char`); character
  scans work over `String.data`.
* Python generators are embedded eagerly as `List Token`.  The pipeline is
  only ever consumed left to right, and the lexer is proved total
  (`lexer_total`), so the eager list and the lazy generator agree on every
  observable of the claims.
* Python code that can raise is embedded in `Except`: an uncaught
  `ValueError` inside the operator resolver is `Except.error ()`; the
  parser's exceptions are the explicit `ParseErr` type.
* Two loops whose measures are not structural (the stage-1 scan and the
  mutually recursive parser) take an explicit fuel argument so that every
  definition stays a computable structural recursion; the fuel chosen at
  the entry points strictly dominates the number of loop iterations the
  Python code performs (each stage-1 iteration consumes at least one
  character; each parser call either consumes a token or errors), so the
  out-of-fuel branches are unreachable for the actual entry points.
-/

/-- Token categories of zergb (`TokenType` in lexer.py).  Structural
categories come from `enum.auto()`; literal-keyed categories carry their
exact spelling, recorded here by `tokenTypeOfString`. -/
inductive TokenType where
  | ROOT
  | UNKNOWN
  | NEWLINE
  | COMMENT
  | INDENT
  | DEDENT
  | SPACE
  | STRING
  | NAME
  | ADD
  | SUB
  | MUL
  | DIV
  | MOD
  | NEG
  | INC
  | DEC
  | LT
  | GT
  | AND
  | OR
  | NOT
  | XOR
  | LSHIFT
  | RSHIFT
  | LPARENTHESES
  | RPARENTHESES
  | LBRACE
  | RBRACE
  | LBRACKET
  | RBRACKET
  | ARROW
  | FN
  | PRINT
  | NOP
deriving DecidableEq, Repr

/-- Lookup of a literal-keyed category by its exact spelling: the
embedding of Python's `TokenType(raw)` enum-value construction, which
succeeds exactly on the spellings below and raises `ValueError` (here:
`none`) otherwise. -/
def tokenTypeOfString (s : String) : Option TokenType :=
  match s with
  | "+" => some .ADD
  | "-" => some .SUB
  | "*" => some .MUL
  | "/" => some .DIV
  | "%" => some .MOD
  | "~" => some .NEG
  | "++" => some .INC
  | "--" => some .DEC
  | "<" => some .LT
  | ">" => some .GT
  | "&" => some .AND
  | "|" => some .OR
  | "!" => some .NOT
  | "^" => some .XOR
  | "<<" => some .LSHIFT
  | ">>" => some .RSHIFT
  | "(" => some .LPARENTHESES
  | ")" => some .RPARENTHESES
  | "\x7b" => some .LBRACE
  | "\x7d" => some .RBRACE
  | "[" => some .LBRACKET
  | "]" => some .RBRACKET
  | "->" => some .ARROW
  | "fn" => some .FN
  | "print" => some .PRINT
  | "nop" => some .NOP
  | _ => none

/-- Token value: raw source text plus resolved category (class `Token` in
lexer.py; the Python default `tt=TokenType.UNKNOWN` is written out
explicitly at each construction site). -/
structure Token where
  raw : String
  type : TokenType
deriving DecidableEq, Repr

/-- Operator character set `Lexer.OPERATORS` (the string
literal of operator characters in lexer.py, as a character list). -/
def OPERATORS : List Char :=
  ['+', '-', '*', '/', '%', '<', '>', '&', '|', '!', '^', '~',
   '(', ')', '\x7b', '\x7d', '[', ']']

/-- Greedy literal matcher `TokenType.yield_tokens`: try the whole
remaining run as one spelling; otherwise peel the first character, resolve
it on its own (an unmatched single character raises `ValueError`, embedded
as `Except.error ()`; calling it on the empty string raises `IndexError`,
also embedded as `Except.error ()`), and recurse on the remainder. -/
def yieldTokensAux (cs : List Char) : Except Unit (List Token) :=
  match tokenTypeOfString (String.mk cs) with
  | some tt => .ok [⟨String.mk cs, tt⟩]
  | none =>
    match cs with
    | [] => .error ()
    | c :: rest =>
      match tokenTypeOfString (String.mk [c]) with
      | some tt1 => do
        let ts ← yieldTokensAux rest
        pure (⟨String.mk [c], tt1⟩ :: ts)
      | none => .error ()

/-- String-level wrapper of `yieldTokensAux` keeping the source name. -/
def yield_tokens (raw : String) : Except Unit (List Token) :=
  yieldTokensAux raw.data

/-- Stage 1 scan `Lexer.lexer_by_tokens`: coarse segmentation of the raw
character list.  Mirrors the Python index loop branch by branch; the fuel
argument only bounds the number of emitted tokens (each iteration consumes
at least one character, so fuel `length + 1` never runs out). -/
def lexer_by_tokens_go (fuel : Nat) (cs : List Char) : List Token :=
  match fuel, cs with
  | 0, _ => []
  | _, [] => []
  | fuel + 1, c :: rest =>
    if c = '\n' then
      -- case '\n': a single-character NEWLINE token
      ⟨"\n", .NEWLINE⟩ :: lexer_by_tokens_go fuel rest
    else if c = '/' then
      if rest.head? = some '/' then
        -- comment: spans up to but not including the next newline; the
        -- Python loop then sets index = stop and afterwards index += 1,
        -- skipping the terminating newline without emitting it
        let body := List.takeWhile (fun x => x ≠ '\n') (c :: rest)
        let after := List.dropWhile (fun x => x ≠ '\n') (c :: rest)
        ⟨String.mk body, .COMMENT⟩ :: lexer_by_tokens_go fuel (after.drop 1)
      else
        -- a '/' not followed by '/': yielded alone with the default type
        ⟨"/", .UNKNOWN⟩ :: lexer_by_tokens_go fuel rest
    else if c = ' ' ∨ c = '\t' then
      -- a maximal run of spaces and tabs becomes one SPACE token
      let run := List.takeWhile (fun x => x = ' ' ∨ x = '\t') (c :: rest)
      let after := List.dropWhile (fun x => x = ' ' ∨ x = '\t') (c :: rest)
      ⟨String.mk run, .SPACE⟩ :: lexer_by_tokens_go fuel after
    else if c = '"' then
      -- string literal: up to and including the next '"', or to end of
      -- input when unterminated
      let inner := List.takeWhile (fun x => x ≠ '"') rest
      let after := List.dropWhile (fun x => x ≠ '"') rest
      ⟨String.mk (c :: (inner ++ after.take 1)), .STRING⟩ ::
        lexer_by_tokens_go fuel (after.drop 1)
    else
      -- default: a maximal run of non-whitespace characters, UNKNOWN
      let run := List.takeWhile (fun x => ¬ (x = ' ' ∨ x = '\t' ∨ x = '\n')) (c :: rest)
      let after := List.dropWhile (fun x => ¬ (x = ' ' ∨ x = '\t' ∨ x = '\n')) (c :: rest)
      ⟨String.mk run, .UNKNOWN⟩ :: lexer_by_tokens_go fuel after

/-- Stage 1 entry point on strings. -/
def lexer_by_tokens (src : String) : List Token :=
  lexer_by_tokens_go (src.data.length + 1) src.data

/-- Inner loop of `Lexer.lexer_extract_operator`: walk the characters of
one UNKNOWN token's raw text, accumulating the current non-operator run in
`remains` and the current operator run in `operators`, flushing each when
the other kind of character arrives, exactly as the Python loop does. -/
def extractOpChars (chars : List Char) (remains operators : String) :
    Except Unit (List Token) :=
  match chars with
  | [] => do
    let fin2 ← if operators = "" then pure [] else yield_tokens operators
    pure ((if remains = "" then [] else [(⟨remains, .UNKNOWN⟩ : Token)]) ++ fin2)
  | ch :: rest =>
    if ch ∈ OPERATORS then
      if remains = "" then
        extractOpChars rest remains (operators.push ch)
      else do
        let ts ← extractOpChars rest "" (operators.push ch)
        pure (⟨remains, .UNKNOWN⟩ :: ts)
    else
      if operators = "" then
        extractOpChars rest (remains.push ch) operators
      else do
        let ts ← yield_tokens operators
        let ts2 ← extractOpChars rest (remains.push ch) ""
        pure (ts ++ ts2)

/-- Stage 2 `Lexer.lexer_extract_operator`: rescan every UNKNOWN token,
passing every other category through unchanged. -/
def lexer_extract_operator : List Token → Except Unit (List Token)
  | [] => pure []
  | t :: ts =>
    match t.type with
    | .UNKNOWN => do
      let a ← extractOpChars t.raw.data "" ""
      let b ← lexer_extract_operator ts
      pure (a ++ b)
    | _ => do
      let b ← lexer_extract_operator ts
      pure (t :: b)

/-- Stage 3 `Lexer.lexer_identify_word`: a surviving UNKNOWN token whose
raw text is a literal spelling is re-tagged with that category (this is
where `fn`, `print`, `nop` are recognised); otherwise it becomes NAME. -/
def lexer_identify_word (ts : List Token) : List Token :=
  ts.map fun t =>
    match t.type with
    | .UNKNOWN =>
      match tokenTypeOfString t.raw with
      | some tt => ⟨t.raw, tt⟩
      | none => ⟨t.raw, .NAME⟩
    | _ => t

/-- Stage 4 `Lexer.lexer_remove_unuseful`: drop SPACE, COMMENT and
NEWLINE tokens. -/
def lexer_remove_unuseful (ts : List Token) : List Token :=
  ts.filter fun t =>
    match t.type with
    | .SPACE | .COMMENT | .NEWLINE => false
    | _ => true

/-- Full pipeline `Lexer.lexer` / `Lexer._lexer`: stages 1 to 4 in
order.  The only failure path is an uncaught `ValueError` inside stage 2's
call to `yield_tokens` (proved unreachable in `lexer_total`). -/
def lexer (src : String) : Except Unit (List Token) := do
  let base := lexer_by_tokens src
  let base ← lexer_extract_operator base
  pure (lexer_remove_unuseful (lexer_identify_word base))

/-- AST node (class `ASTNode` in parser.py): one token plus the ordered
child list.  The Python object also carries a parent back-reference used
only by the renderer's "am I the last child" query; in this value
embedding that query is answered positionally (last position in the
parent's child list), which coincides with Python's identity test
`parent.childs[-1] == self` whenever no node object is appended twice
under the same parent, the contract the data model imposes. -/
inductive ASTNode where
  | mk (token : Token) (childs : List ASTNode)
deriving Repr

/-- Token of a node. -/
def ASTNode.token : ASTNode → Token
  | .mk t _ => t

/-- Ordered children of a node. -/
def ASTNode.childs : ASTNode → List ASTNode
  | .mk _ cs => cs

/-- Append a child (`ASTNode.__add__`): the child goes to the end of the
child list and the parent is returned, enabling chained construction. -/
def ASTNode.add : ASTNode → ASTNode → ASTNode
  | .mk t cs, other => .mk t (cs ++ [other])

/-- Synthetic token of a parentless node (`Token('.', tt=TokenType.ROOT)`
made by `ASTNode.__init__` when no token is given). -/
def rootTok : Token := ⟨".", .ROOT⟩

/-- Display text of a token (`Token.__str__`): SPACE and NEWLINE render
as bracketed tags, everything else as its raw text. -/
def tokenStr (t : Token) : String :=
  match t.type with
  | .SPACE => "[SPACE]"
  | .NEWLINE => "[NEWLINE]"
  | _ => t.raw

/-- Indentation prefix (Python's space-times-indent). -/
def indentStr (n : Nat) : String := String.mk (List.replicate n ' ')

mutual
/-- Render a subtree as its list of output lines (`ASTNode.__str__`):
the root line is the bare token text; any other line is indentation, a
mid-child or last-child connector, two spaces, then the token text;
children are rendered four columns deeper. -/
def ASTNode.render : ASTNode → Nat → Bool → Bool → List String
  | .mk tok childs, indent, isRoot, isLatest =>
    (if isRoot then tokenStr tok
     else indentStr indent ++ (if isLatest then "└─" else "├─") ++ "  " ++ tokenStr tok)
      :: ASTNode.renderChilds childs (indent + 4)

/-- Render a child list: every child except the last gets the mid-child
connector, the last child the last-child connector (`is_latest`). -/
def ASTNode.renderChilds : List ASTNode → Nat → List String
  | [], _ => []
  | [c], indent => ASTNode.render c indent false true
  | c :: c2 :: rest, indent =>
    ASTNode.render c indent false false ++ ASTNode.renderChilds (c2 :: rest) indent
end

/-- String form of a parentless node's subtree: its lines joined by
newlines, as Python's `'\n'.join` produces. -/
def ASTNode.str (n : ASTNode) : String :=
  String.intercalate "\n" (n.render 0 true true)

/-- Errors the parser can raise.  `stopIteration` is Python's
`StopIteration` escaping from `next()` on the exhausted token generator
inside the `next_token` property; `valueError` is the explicit
`raise ValueError(...)` of the grammar checks, carrying the offending
token; `notImplementedError` is the `_parse_func_args` stub;
`attributeError` is the call to the undefined `_parse_type_hint`;
`assertionFailed` is the `assert` in `_parse_func_stmt`; `lexerFailure`
and `outOfFuel` are artifacts of the embedding proved unreachable from
`parse` (the lexer is total, and the fuel dominates the recursion
depth). -/
inductive ParseErr where
  | stopIteration
  | valueError (msg : String) (tok : Token)
  | notImplementedError
  | attributeError
  | assertionFailed
  | lexerFailure
  | outOfFuel
deriving DecidableEq, Repr

/-- Parser cursor state: the not-yet-consumed remainder of the token
stream, plus the pushback stack `_token_stack` drained before the
stream. -/
structure PState where
  tokens : List Token
  stack : List Token
deriving Repr

/-- Getter `Parser.next_token`: pop the pushback stack if non-empty,
else pull the next stream token; an exhausted stream raises
`StopIteration`. -/
def nextToken : PState → Except ParseErr (Token × PState)
  | ⟨ts, p :: stk⟩ => .ok (p, ⟨ts, stk⟩)
  | ⟨p :: ts, []⟩ => .ok (p, ⟨ts, []⟩)
  | ⟨[], []⟩ => .error .stopIteration

/-- Setter `Parser.next_token = v`: push a token back. -/
def pushToken (t : Token) (s : PState) : PState := ⟨s.tokens, t :: s.stack⟩

/-- Embedding of `Parser._parse_func_head`: require NAME, require a left
parenthesis, then either an immediate right parenthesis or the
`_parse_func_args` stub (`NotImplementedError`); finally either an arrow
(reaching the undefined `_parse_type_hint`, an `AttributeError`) or a
pushback of the peeked token. -/
def parse_func_head (s : PState) : Except ParseErr (ASTNode × PState) := do
  let (name, s) ← nextToken s
  if name.type = .NAME then
    let node : ASTNode := .mk name []
    let (p1, s) ← nextToken s
    if p1.type = .LPARENTHESES then do
      let (p2, s) ← nextToken s
      if p2.type = .RPARENTHESES then do
        let (p3, s) ← nextToken s
        if p3.type = .ARROW then
          .error .attributeError
        else
          pure (node, pushToken p3 s)
      else
        .error .notImplementedError
    else
      .error (.valueError "function should follow with parentheses" p1)
  else
    .error (.valueError "function should follow with name" name)

mutual
/-- Embedding of `Parser._parse_source`: read one token; a right brace is
pushed back and yields an empty root, anything else is dispatched to
`_parse_block` and attached as the root's only child. -/
def parse_source (fuel : Nat) (s : PState) : Except ParseErr (ASTNode × PState) :=
  match fuel with
  | 0 => .error .outOfFuel
  | fuel + 1 => do
    let (prev, s) ← nextToken s
    if prev.type = .RBRACE then
      pure (.mk rootTok [], pushToken prev s)
    else do
      let (node, s) ← parse_block fuel prev s
      pure ((ASTNode.mk rootTok []).add node, s)

/-- Embedding of `Parser._parse_block`: dispatch on the lookahead token's
category; NOP is a leaf, FN recurses into the function statement, and any
other category is the "Unexpected token" `ValueError`. -/
def parse_block (fuel : Nat) (prev : Token) (s : PState) :
    Except ParseErr (ASTNode × PState) :=
  match fuel with
  | 0 => .error .outOfFuel
  | fuel + 1 =>
    if prev.type = .NOP then
      pure (.mk prev [], s)
    else if prev.type = .FN then
      parse_func_stmt fuel prev s
    else
      .error (.valueError "Unexpected token" prev)

/-- Embedding of `Parser._parse_func_stmt`: assert the FN lookahead, then
attach the function head and the brace-delimited scope, in order, under a
node labeled with the FN token. -/
def parse_func_stmt (fuel : Nat) (prev : Token) (s : PState) :
    Except ParseErr (ASTNode × PState) :=
  match fuel with
  | 0 => .error .outOfFuel
  | fuel + 1 =>
    if prev.type = .FN then do
      let (head, s) ← parse_func_head s
      let (scope, s) ← parse_scope fuel s
      pure (((ASTNode.mk prev []).add head).add scope, s)
    else
      .error .assertionFailed

/-- Embedding of `Parser._parse_scope`: require a left brace, parse the
body as a nested source, require the right brace. -/
def parse_scope (fuel : Nat) (s : PState) : Except ParseErr (ASTNode × PState) :=
  match fuel with
  | 0 => .error .outOfFuel
  | fuel + 1 => do
    let (prev, s) ← nextToken s
    if prev.type = .LBRACE then do
      let (node, s) ← parse_source fuel s
      let (prev2, s) ← nextToken s
      if prev2.type = .RBRACE then
        pure (node, s)
      else
        .error (.valueError "expecting right brace but got" prev2)
    else
      .error (.valueError "expecting left brace but got" prev)
end

/-- Embedding of `Parser.parse`: run the lexer, then `_parse_source` on a
fresh cursor with an empty pushback stack.  The fuel bounds the parser's
call depth; every nesting level of the grammar consumes at least five
tokens (fn, name, both parentheses, the left brace) while the call depth
grows by at most four per level, so five fuel per token plus a constant
strictly dominates the recursion Python performs and the out-of-fuel
branch is unreachable. -/
def parse (src : String) : Except ParseErr ASTNode :=
  match lexer src with
  | .error _ => .error .lexerFailure
  | .ok ts => (parse_source (5 * ts.length + 5) ⟨ts, []⟩).map Prod.fst

/-- Boolean form of the configuration fact behind stage 2's safety: every
character in the operator set has a one-character literal-keyed
category. -/
theorem operators_spellings_all :
    (OPERATORS.all fun c => (tokenTypeOfString (String.mk [c])).isSome) = true := by
  decide

/-- Every character of the operator set resolves, on its own, to a
literal-keyed category. -/
theorem op_char_spelling_some :
    ∀ c ∈ OPERATORS, (tokenTypeOfString (String.mk [c])).isSome := by
  intro c hc
  have h := operators_spellings_all
  rw [List.all_eq_true] at h
  exact h c hc

/-- The greedy literal matcher succeeds on every non-empty run of
operator characters: either the whole run is a known spelling, or the
first character is peeled off and itself always matches. -/
theorem yieldTokensAux_ok :
    ∀ cs : List Char, cs ≠ [] → (∀ c ∈ cs, c ∈ OPERATORS) →
      ∃ ts, yieldTokensAux cs = Except.ok ts := by
  intro cs
  induction cs with
  | nil => intro h; exact absurd rfl h
  | cons c rest ih =>
    intro _ hall
    rw [yieldTokensAux]
    cases hwhole : tokenTypeOfString (String.mk (c :: rest)) with
    | some tt => exact ⟨_, rfl⟩
    | none =>
      have hc : (tokenTypeOfString (String.mk [c])).isSome :=
        op_char_spelling_some c (hall c (List.mem_cons_self c rest))
      cases hsingle : tokenTypeOfString (String.mk [c]) with
      | none => rw [hsingle] at hc; simp at hc
      | some tt1 =>
        cases rest with
        | nil =>
          rw [hsingle] at hwhole
          exact absurd hwhole (by simp)
        | cons d ds =>
          obtain ⟨ts, hts⟩ := ih (by simp)
            (fun x hx => hall x (List.mem_cons_of_mem c hx))
          refine ⟨⟨String.mk [c], tt1⟩ :: ts, ?_⟩
          simp only [hsingle, hts]
          rfl

/-- The accumulator loop of stage 2 never fails: the `operators`
accumulator only ever holds characters of the operator set, and those are
exactly the runs handed to `yield_tokens`. -/
theorem extractOpChars_ok :
    ∀ (chars : List Char) (remains operators : String),
      (∀ c ∈ operators.data, c ∈ OPERATORS) →
      ∃ ts, extractOpChars chars remains operators = Except.ok ts := by
  intro chars
  induction chars with
  | nil =>
    intro remains operators hops
    rw [extractOpChars]
    by_cases hop : operators = ""
    · simp only [hop, if_pos rfl]
      exact ⟨_, rfl⟩
    · simp only [if_neg hop]
      obtain ⟨ts, hts⟩ := yieldTokensAux_ok operators.data
        (fun hn => hop (String.ext hn)) hops
      rw [yield_tokens, hts]
      exact ⟨_, rfl⟩
  | cons ch rest ih =>
    intro remains operators hops
    rw [extractOpChars]
    by_cases hch : ch ∈ OPERATORS
    · have hops' : ∀ c ∈ (operators.push ch).data, c ∈ OPERATORS := by
        intro c hc
        rw [show (operators.push ch).data = operators.data ++ [ch] from rfl] at hc
        rcases List.mem_append.1 hc with h | h
        · exact hops c h
        · simp at h; rwa [h]
      by_cases hrem : remains = ""
      · simp only [if_pos hch, if_pos hrem]
        exact ih remains (operators.push ch) hops'
      · simp only [if_pos hch, if_neg hrem]
        obtain ⟨ts, hts⟩ := ih "" (operators.push ch) hops'
        rw [hts]
        exact ⟨_, rfl⟩
    · by_cases hop : operators = ""
      · simp only [if_neg hch, if_pos hop]
        exact ih (remains.push ch) operators hops
      · simp only [if_neg hch, if_neg hop]
        obtain ⟨ts, hts⟩ := yieldTokensAux_ok operators.data
          (fun hn => hop (String.ext hn)) hops
        obtain ⟨ts2, hts2⟩ := ih (remains.push ch) "" (by intro c hc; simp at hc)
        rw [yield_tokens, hts, hts2]
        exact ⟨_, rfl⟩

/-- Stage 2 never fails on any token list: re-emission starts with empty
accumulators, so the invariant of `extractOpChars_ok` holds trivially. -/
theorem lexer_extract_operator_ok :
    ∀ ts : List Token, ∃ out, lexer_extract_operator ts = Except.ok out := by
  intro ts
  induction ts with
  | nil => exact ⟨[], rfl⟩
  | cons t rest ih =>
    obtain ⟨out, hout⟩ := ih
    obtain ⟨a, ha⟩ := extractOpChars_ok t.raw.data "" "" (by intro c hc; simp at hc)
    cases htt : t.type <;>
      simp only [lexer_extract_operator, htt, ha, hout] <;>
      exact ⟨_, rfl⟩

/-- The full lexer pipeline is total: for every source string it returns
a finite token list and never an error. -/
theorem lexer_total : ∀ src : String, ∃ ts, lexer src = Except.ok ts := by
  intro src
  rw [lexer]
  obtain ⟨out, hout⟩ := lexer_extract_operator_ok (lexer_by_tokens src)
  rw [hout]
  exact ⟨_, rfl⟩

/-- Helper for C9: whatever `_parse_source` returns has at most one
child, because it builds the root and attaches at most the single
statement `_parse_block` produced. -/
theorem parse_source_child_bound :
    ∀ (fuel : Nat) (st : PState) (a : ASTNode) (s' : PState),
      parse_source fuel st = Except.ok (a, s') → a.childs.length ≤ 1 := by
  intro fuel st a s' h
  match fuel with
  | 0 => simp [parse_source] at h
  | f + 1 =>
    rw [parse_source] at h
    cases hnt : nextToken st with
    | error e => rw [hnt] at h; simp [bind, Except.bind] at h
    | ok pr =>
      obtain ⟨prev, s1⟩ := pr
      rw [hnt] at h
      simp only [bind, Except.bind] at h
      by_cases hrb : prev.type = .RBRACE
      · rw [if_pos hrb] at h
        simp only [pure, Except.pure, Except.ok.injEq, Prod.mk.injEq] at h
        rw [← h.1]
        simp [ASTNode.childs]
      · rw [if_neg hrb] at h
        cases hpb : parse_block f prev s1 with
        | error e => rw [hpb] at h; simp at h
        | ok pr2 =>
          obtain ⟨node, s2⟩ := pr2
          rw [hpb] at h
          simp only [pure, Except.pure, Except.ok.injEq, Prod.mk.injEq] at h
          rw [← h.1]
          simp [ASTNode.add, ASTNode.childs]

/-- C2: parsing the empty source does NOT return an empty root; the very
first pull on the token stream raises an uncaught `StopIteration` from
`next()` inside the `next_token` property, which escapes `parse`. -/
theorem c2_empty_source_raises :
    parse "" = Except.error ParseErr.stopIteration := rfl

/-- C3: parsing the unterminated header terminates, but the failure is
the bare `StopIteration` leaking from the exhausted token stream when
`_parse_func_head` asks for the token after the left parenthesis, not a
descriptive `ValueError` carrying an unexpected token. -/
theorem c3_unterminated_head_raises :
    parse "fn main(" = Except.error ParseErr.stopIteration := rfl

/-- C4: the four-stage lexer pipeline is total — it terminates (the
embedding is a terminating function) and never returns an error — and
every character of the operator set resolves on its own to a
one-character literal-keyed category, which is exactly why stage 2's
greedy resolver can never fail. -/
theorem c4_lexer_never_fails :
    (∀ src : String, ∃ ts, lexer src = Except.ok ts) ∧
    (∀ c ∈ OPERATORS, (tokenTypeOfString (String.mk [c])).isSome) :=
  ⟨lexer_total, op_char_spelling_some⟩

/-- Witness for C4 at concrete inputs. -/
theorem c4_witness :
    (∃ ts, lexer "a ++ b" = Except.ok ts) ∧
    (tokenTypeOfString (String.mk ['+'])).isSome :=
  ⟨c4_lexer_never_fails.1 "a ++ b", c4_lexer_never_fails.2 '+' (by decide)⟩

/-- C5: the operator resolver is longest-match: a double plus is one INC
token, while plus-minus (no two-character spelling) splits into ADD then
SUB. -/
theorem c5_longest_match :
    lexer "++" = Except.ok [⟨"++", TokenType.INC⟩] ∧
    lexer "+-" = Except.ok [⟨"+", TokenType.ADD⟩, ⟨"-", TokenType.SUB⟩] :=
  ⟨rfl, rfl⟩

/-- C6: the function declaration parses to a root with a single FN child
whose first child is the NAME node for "main" and whose second child is
an empty body root. -/
theorem c6_fn_main_tree :
    parse "fn main() \x7b \x7d" = Except.ok (ASTNode.mk rootTok
      [ASTNode.mk ⟨"fn", TokenType.FN⟩
        [ASTNode.mk ⟨"main", TokenType.NAME⟩ [], ASTNode.mk rootTok []]]) := rfl

/-- C7: after stage 4 the stream holds no SPACE, COMMENT or NEWLINE
token, for every input string. -/
theorem c7_no_noise_after_stage4 :
    ∀ (src : String) (ts : List Token), lexer src = Except.ok ts →
      ∀ t ∈ ts, t.type ≠ TokenType.SPACE ∧ t.type ≠ TokenType.COMMENT ∧
        t.type ≠ TokenType.NEWLINE := by
  intro src ts h t ht
  rw [lexer] at h
  cases hex : lexer_extract_operator (lexer_by_tokens src) with
  | error e => rw [hex] at h; simp [bind, Except.bind] at h
  | ok out =>
    rw [hex] at h
    simp only [bind, Except.bind, pure, Except.pure, Except.ok.injEq] at h
    rw [← h] at ht
    have hp := List.of_mem_filter ht
    cases htt : t.type <;> simp_all [lexer_remove_unuseful]

/-- Witness for C7: the surviving token of a source with spaces and a
comment is not of a noise category. -/
theorem c7_witness :
    Token.type ⟨"nop", TokenType.NOP⟩ ≠ TokenType.SPACE ∧
    Token.type ⟨"nop", TokenType.NOP⟩ ≠ TokenType.COMMENT ∧
    Token.type ⟨"nop", TokenType.NOP⟩ ≠ TokenType.NEWLINE :=
  c7_no_noise_after_stage4 "nop //c" [⟨"nop", TokenType.NOP⟩] rfl
    ⟨"nop", TokenType.NOP⟩ (by simp)

/-- C9: whenever `parse` returns normally the root carries at most one
child, and extra top-level tokens are simply never pulled from the
stream: two consecutive nop statements parse without error to a root with
exactly one NOP child. -/
theorem c9_single_statement_root :
    ∀ (src : String) (ast : ASTNode), parse src = Except.ok ast →
      ast.childs.length ≤ 1 ∧
      parse "nop nop" = Except.ok (ASTNode.mk rootTok [ASTNode.mk ⟨"nop", TokenType.NOP⟩ []]) := by
  intro src ast h
  refine ⟨?_, rfl⟩
  cases hlex : lexer src with
  | error e => simp only [parse, hlex] at h; exact absurd h (by simp)
  | ok ts =>
    simp only [parse, hlex] at h
    cases hps : parse_source (5 * ts.length + 5) ⟨ts, []⟩ with
    | error e => rw [hps] at h; simp [Except.map] at h
    | ok pr =>
      obtain ⟨a, s'⟩ := pr
      rw [hps] at h
      simp only [Except.map, Except.ok.injEq] at h
      rw [← h]
      exact parse_source_child_bound _ _ _ _ hps

/-- Witness for C9 at the two-statement source. -/
theorem c9_witness :
    (ASTNode.childs (ASTNode.mk rootTok [ASTNode.mk ⟨"nop", TokenType.NOP⟩ []])).length ≤ 1 ∧
    parse "nop nop" = Except.ok (ASTNode.mk rootTok [ASTNode.mk ⟨"nop", TokenType.NOP⟩ []]) :=
  c9_single_statement_root "nop nop" (ASTNode.mk rootTok [ASTNode.mk ⟨"nop", TokenType.NOP⟩ []]) rfl

/-- C10: when the first noise-free token is a right brace, `_parse_source`
pushes it back and returns the empty root, so `parse` succeeds with a
childless root instead of reporting a syntax error. -/
theorem c10_stray_rbrace_ignored :
    ∀ (src : String) (t : Token) (rest : List Token),
      lexer src = Except.ok (t :: rest) → t.type = TokenType.RBRACE →
      parse src = Except.ok (ASTNode.mk rootTok []) := by
  intro src t rest hlex hrb
  have hfuel : 5 * (t :: rest).length + 5 = (5 * rest.length + 9) + 1 := by
    simp [List.length_cons]
    ring
  simp only [parse, hlex]
  rw [hfuel, parse_source]
  have hnt : nextToken ⟨t :: rest, []⟩ = .ok (t, ⟨rest, []⟩) := rfl
  rw [hnt]
  simp only [bind, Except.bind, hrb, if_pos, pure, Except.pure, Except.map]

/-- Witness for C10 at the one-character source of a right brace. -/
theorem c10_witness : parse "\x7d" = Except.ok (ASTNode.mk rootTok []) :=
  c10_stray_rbrace_ignored "\x7d" ⟨"\x7d", TokenType.RBRACE⟩ [] rfl rfl

/-- Helper for C8: rendering a child list that ends in two appended
nodes renders some prefix for the earlier children, then the
second-to-last node as a non-last child, then the last node as the last
child. -/
theorem renderChilds_append_two (ind : Nat) (b c : ASTNode) :
    ∀ ds : List ASTNode, ∃ mid : List String,
      ASTNode.renderChilds (ds ++ [b, c]) ind =
        mid ++ ASTNode.render b ind false false ++ ASTNode.render c ind false true := by
  intro ds
  induction ds with
  | nil =>
    refine ⟨[], ?_⟩
    simp only [List.nil_append, ASTNode.renderChilds, List.append_assoc]
  | cons d ds ih =>
    obtain ⟨mid, hmid⟩ := ih
    refine ⟨ASTNode.render d ind false false ++ mid, ?_⟩
    cases hds : ds ++ [b, c] with
    | nil => simp at hds
    | cons y r =>
      rw [List.cons_append, hds, ASTNode.renderChilds, ← hds, hmid]
      simp [List.append_assoc]

/-- C8: after appending child B and then child C to node A, rendering
A's subtree shows B's line with the mid-child connector and C's line with
the last-child connector, each indented four columns, with their own
subtrees rendered below them; `mid` is the rendering of A's earlier
children. -/
theorem c8_connectors :
    ∀ (tA tB tC : Token) (ds bs cs : List ASTNode),
      ∃ mid : List String,
        ASTNode.render
            (((ASTNode.mk tA ds).add (ASTNode.mk tB bs)).add (ASTNode.mk tC cs)) 0 true true =
          tokenStr tA :: (mid
            ++ (("    ├─  " ++ tokenStr tB) :: ASTNode.renderChilds bs 8)
            ++ (("    └─  " ++ tokenStr tC) :: ASTNode.renderChilds cs 8)) := by
  intro tA tB tC ds bs cs
  obtain ⟨mid, hmid⟩ :=
    renderChilds_append_two 4 (ASTNode.mk tB bs) (ASTNode.mk tC cs) ds
  refine ⟨mid, ?_⟩
  have hlist : (ds ++ [ASTNode.mk tB bs]) ++ [ASTNode.mk tC cs]
      = ds ++ [ASTNode.mk tB bs, ASTNode.mk tC cs] := by
    simp
  have hB : ASTNode.render (ASTNode.mk tB bs) 4 false false
      = ("    ├─  " ++ tokenStr tB) :: ASTNode.renderChilds bs 8 := by
    rw [ASTNode.render]
    norm_num
    rfl
  have hC : ASTNode.render (ASTNode.mk tC cs) 4 false true
      = ("    └─  " ++ tokenStr tC) :: ASTNode.renderChilds cs 8 := by
    rw [ASTNode.render]
    norm_num
    rfl
  simp only [ASTNode.add, hlist]
  rw [ASTNode.render, hmid, hB, hC]
  simp [List.append_assoc]

/-- Concatenation of the raw texts of a token stream, the round-trip
observation of the lossless-segmentation property. -/
def raw_concat (ts : List Token) : String :=
  ts.foldr (fun t acc => t.raw ++ acc) ""

/-- Character-level view of `raw_concat`. -/
def tokens_data : List Token → List Char
  | [] => []
  | t :: rest => t.raw.data ++ tokens_data rest

/-- Characters of the concatenated raw texts. -/
theorem raw_concat_data : ∀ ts : List Token, (raw_concat ts).data = tokens_data ts := by
  intro ts
  induction ts with
  | nil => rfl
  | cons t rest ih =>
    show (t.raw ++ raw_concat rest).data = t.raw.data ++ tokens_data rest
    rw [show (t.raw ++ raw_concat rest).data = t.raw.data ++ (raw_concat rest).data from rfl, ih]

/-- Stage 1 of the empty remainder emits nothing, whatever the fuel. -/
theorem lexer_go_nil : ∀ fuel : Nat, lexer_by_tokens_go fuel [] = [] := by
  intro fuel
  cases fuel <;> rfl

/-- Guard for the amended C1: scans the source exactly as stage 1 does
and reports whether every comment runs to end of input — a comment
terminated by a newline is the single situation in which stage 1 consumes
a character (that newline) without emitting it in any token. -/
def no_comment_newline_go (fuel : Nat) (cs : List Char) : Bool :=
  match fuel, cs with
  | 0, _ => true
  | _, [] => true
  | fuel + 1, c :: rest =>
    if c = '\n' then no_comment_newline_go fuel rest
    else if c = '/' then
      if rest.head? = some '/' then
        List.dropWhile (fun x => x ≠ '\n') (c :: rest) = []
      else no_comment_newline_go fuel rest
    else if c = ' ' ∨ c = '\t' then
      no_comment_newline_go fuel (List.dropWhile (fun x => x = ' ' ∨ x = '\t') (c :: rest))
    else if c = '"' then
      no_comment_newline_go fuel ((List.dropWhile (fun x => x ≠ '"') rest).drop 1)
    else
      no_comment_newline_go fuel
        (List.dropWhile (fun x => ¬ (x = ' ' ∨ x = '\t' ∨ x = '\n')) (c :: rest))

/-- String-level guard for the amended C1. -/
def no_comment_newline (src : String) : Bool :=
  no_comment_newline_go (src.data.length + 1) src.data

/-- Stage 1 is lossless on every source without a newline-terminated
comment: each branch emits exactly the characters it consumes, except the
comment branch, which under the guard is only reached when the comment
runs to end of input. -/
theorem lexer_go_lossless :
    ∀ (fuel : Nat) (cs : List Char), cs.length < fuel →
      no_comment_newline_go fuel cs = true →
      tokens_data (lexer_by_tokens_go fuel cs) = cs := by
  intro fuel
  induction fuel with
  | zero => intro cs h _; exact absurd h (Nat.not_lt_zero _)
  | succ f ih =>
    intro cs hlen hp
    match cs with
    | [] => rfl
    | c :: rest =>
      rw [lexer_by_tokens_go]
      rw [no_comment_newline_go] at hp
      have hrest : rest.length < f := by
        simp only [List.length_cons] at hlen
        omega
      by_cases hnl : c = '\n'
      · rw [if_pos hnl] at hp ⊢
        simp only [tokens_data]
        rw [ih rest hrest hp, hnl]
        rfl
      · rw [if_neg hnl] at hp ⊢
        by_cases hsl : c = '/'
        · rw [if_pos hsl] at hp ⊢
          by_cases hh : rest.head? = some '/'
          · rw [if_pos hh] at hp ⊢
            simp only [decide_eq_true_eq] at hp
            rw [hp]
            simp only [tokens_data, List.drop_nil, lexer_go_nil, List.append_nil]
            have hsplit := List.takeWhile_append_dropWhile
              (fun x => decide (x ≠ '\n')) (c :: rest)
            rw [hp, List.append_nil] at hsplit
            exact hsplit
          · rw [if_neg hh] at hp ⊢
            simp only [tokens_data]
            rw [ih rest hrest hp, hsl]
            rfl
        · rw [if_neg hsl] at hp ⊢
          by_cases hsp : c = ' ' ∨ c = '\t'
          · rw [if_pos hsp] at hp ⊢
            have hdw : List.dropWhile (fun x => decide (x = ' ' ∨ x = '\t')) (c :: rest)
                = List.dropWhile (fun x => decide (x = ' ' ∨ x = '\t')) rest :=
              List.dropWhile_cons_of_pos (by simpa using hsp)
            have hlen' :
                (List.dropWhile (fun x => decide (x = ' ' ∨ x = '\t')) (c :: rest)).length < f := by
              rw [hdw]
              exact Nat.lt_of_le_of_lt
                ((List.dropWhile_sublist _).length_le) hrest
            simp only [tokens_data]
            rw [ih _ hlen' hp]
            exact List.takeWhile_append_dropWhile (fun x => decide (x = ' ' ∨ x = '\t')) (c :: rest)
          · rw [if_neg hsp] at hp ⊢
            by_cases hq : c = '"'
            · rw [if_pos hq] at hp ⊢
              have hlen' :
                  ((List.dropWhile (fun x => decide (x ≠ '"')) rest).drop 1).length < f := by
                have h1 : (List.dropWhile (fun x => decide (x ≠ '"')) rest).length ≤ rest.length :=
                  (List.dropWhile_sublist _).length_le
                rw [List.length_drop]
                omega
              simp only [tokens_data]
              rw [ih _ hlen' hp]
              show (c :: (List.takeWhile (fun x => decide (x ≠ '"')) rest
                  ++ (List.dropWhile (fun x => decide (x ≠ '"')) rest).take 1))
                ++ (List.dropWhile (fun x => decide (x ≠ '"')) rest).drop 1 = c :: rest
              rw [List.cons_append, List.append_assoc, List.take_append_drop,
                List.takeWhile_append_dropWhile]
            · rw [if_neg hq] at hp ⊢
              have hpc : (fun x => decide (¬ (x = ' ' ∨ x = '\t' ∨ x = '\n'))) c = true := by
                simp only [decide_eq_true_eq]
                push_neg
                refine ⟨?_, ?_, hnl⟩
                · intro h; exact hsp (Or.inl h)
                · intro h; exact hsp (Or.inr h)
              have hdw : List.dropWhile (fun x => decide (¬ (x = ' ' ∨ x = '\t' ∨ x = '\n'))) (c :: rest)
                  = List.dropWhile (fun x => decide (¬ (x = ' ' ∨ x = '\t' ∨ x = '\n'))) rest :=
                List.dropWhile_cons_of_pos hpc
              have hlen' :
                  (List.dropWhile (fun x => decide (¬ (x = ' ' ∨ x = '\t' ∨ x = '\n'))) (c :: rest)).length < f := by
                rw [hdw]
                exact Nat.lt_of_le_of_lt ((List.dropWhile_sublist _).length_le) hrest
              simp only [tokens_data]
              rw [ih _ hlen' hp]
              exact List.takeWhile_append_dropWhile
                (fun x => decide (¬ (x = ' ' ∨ x = '\t' ∨ x = '\n'))) (c :: rest)

/-- C1 counterexample: on a newline-terminated comment, stage 1 emits
only the comment token — the terminating newline appears in no token, not
as a newline token nor inside the comment's raw text — so the
concatenated raw texts do not reconstruct the source. -/
theorem c1_counterexample :
    lexer_by_tokens "//\n" = [⟨"//", TokenType.COMMENT⟩] ∧
    raw_concat (lexer_by_tokens "//\n") ≠ "//\n" :=
  ⟨rfl, by decide⟩

/-- C1 amended: concatenating the raw texts of all stage-1 tokens
reconstructs the source exactly, provided no comment in the source is
terminated by a newline (a comment running to end of input is fine); the
newline that terminates a comment is consumed without being emitted, so
only such sources fail to round-trip. -/
theorem c1_amended_lossless :
    ∀ src : String, no_comment_newline src = true →
      raw_concat (lexer_by_tokens src) = src := by
  intro src h
  apply String.ext
  rw [raw_concat_data]
  exact lexer_go_lossless (src.data.length + 1) src.data (Nat.lt_succ_self _) h

/-- Witness for the amended C1 on a source that contains spaces, a word
and a comment running to end of input. -/
theorem c1_witness :
    no_comment_newline "nop // c" = true ∧
    raw_concat (lexer_by_tokens "nop // c") = "nop // c" :=
  ⟨rfl, c1_amended_lossless "nop // c" rfl⟩
